import Mathlib

set_option maxRecDepth 40000
set_option maxHeartbeats 2000000

/-!
Verification development for the arabic-rag-system repository.

Texts handled by the chunker (src/document_processor.py, chunk_text) are
modelled as `List Char`; Python slicing, `str.rfind`, and `str.strip` are
embedded below.  The unbounded `while` loop of `chunk_text` is modelled with
explicit fuel (the loop does not terminate on all inputs, see the theorems
about stalling), so the embedded function returns `Option`: `none` means the
fuel was exhausted before the loop finished.
-/

namespace ArabicRag

/-- Whitespace set of Python `str.strip()` (characters `c` with
`c.isspace()`): ASCII space, `\t`, `\n`, `\v`, `\f`, `\r`, the separators
`\x1c`-`\x1f`, `\x85`, `\xa0`, and the Unicode space code points. -/
def pyIsSpace (c : Char) : Bool :=
  decide (c.val = 32 ∨ (9 ≤ c.val ∧ c.val ≤ 13) ∨ (28 ≤ c.val ∧ c.val ≤ 31) ∨
    c.val = 133 ∨ c.val = 160 ∨ c.val = 0x1680 ∨
    (0x2000 ≤ c.val ∧ c.val ≤ 0x200a) ∨ c.val = 0x2028 ∨ c.val = 0x2029 ∨
    c.val = 0x202f ∨ c.val = 0x205f ∨ c.val = 0x3000)

/-- Python `str.strip()`, left part: drop leading whitespace. -/
def pyLStrip (s : List Char) : List Char := s.dropWhile pyIsSpace

/-- Python `str.strip()`, right part: drop trailing whitespace. -/
def pyRStrip (s : List Char) : List Char := (s.reverse.dropWhile pyIsSpace).reverse

/-- Python `str.strip()`: drop leading and trailing whitespace. -/
def pyStrip (s : List Char) : List Char := pyLStrip (pyRStrip s)

/-- Clamp one (possibly negative) Python slice index to the length `L`. -/
def pyIdx (L : Nat) (i : Int) : Nat :=
  if i < 0 then (max 0 ((L : Int) + i)).toNat else min i.toNat L

/-- Python slice `xs[a:b]` with Python's negative-index and clamping rules. -/
def pySlice (xs : List Char) (a b : Int) : List Char :=
  (xs.take (pyIdx xs.length b)).drop (pyIdx xs.length a)

/-- All positions (offset by `i`) of `s` at which `p` starts, in increasing
order; auxiliary to the embedding of Python `str.rfind`. -/
def occurrencesAux (p : List Char) : List Char → Nat → List Nat
  | [], _ => []
  | c :: rest, i =>
      (if p.isPrefixOf (c :: rest) then [i] else []) ++ occurrencesAux p rest (i + 1)

/-- Python `s.rfind(p)`: position of the rightmost occurrence of `p` in `s`
(`none` plays the role of Python's `-1`). -/
def rfindNat? (s p : List Char) : Option Nat := (occurrencesAux p s 0).getLast?

/-- The sentence-boundary markers tried, in order, by `chunk_text`
(src/document_processor.py line 267). -/
def puncts : List (List Char) := [['.', ' '], ['。'], ['！'], ['؟'], ['\n', '\n']]

/-- The `for punct ...: last_punct = text[start:end].rfind(punct); if
last_punct != -1: end = start + last_punct + len(punct); break` loop of
`chunk_text`: for the first marker occurring in the window, the value
`last_punct + len(punct)` (to be added to `start`); `none` when no marker
occurs in the window. -/
def boundaryEnd (w : List Char) : Option Nat :=
  puncts.findSome? (fun p => (rfindNat? w p).map (fun j => j + p.length))

/-- The value of the loop variable `end` of `chunk_text` after the
sentence-boundary adjustment, for window start `start`. -/
def computeEnd (text : List Char) (size start : Int) : Int :=
  let e := start + size
  if e < (text.length : Int) then
    match boundaryEnd (pySlice text start e) with
    | some v => start + (v : Int)
    | none => e
  else e

/-- The `while start < text_length` loop of `chunk_text`, with fuel.
Each iteration slices the window, strips it, appends it to the accumulator
when nonempty, and advances `start` to `end - overlap`. -/
def chunkGo (text : List Char) (size overlap : Int) :
    Nat → Int → List (List Char) → Option (List (List Char))
  | 0, _, _ => none
  | fuel + 1, start, acc =>
      if start < (text.length : Int) then
        let e := computeEnd text size start
        let chunk := pyStrip (pySlice text start e)
        chunkGo text size overlap fuel (e - overlap)
          (if chunk.isEmpty then acc else acc ++ [chunk])
      else some acc

/-- `DocumentProcessor.chunk_text` (src/document_processor.py lines 242-279),
with explicit fuel for the `while` loop. -/
def chunk_text (text : List Char) (size overlap : Int) (fuel : Nat) :
    Option (List (List Char)) :=
  if text.isEmpty then some [] else chunkGo text size overlap fuel 0 []

/-- Instrumented variant of the `chunk_text` loop recording the
`(start, end)` pair of every iteration (including iterations whose stripped
chunk is empty and is therefore not appended). -/
def chunkItersGo (text : List Char) (size overlap : Int) :
    Nat → Int → Option (List (Int × Int))
  | 0, _ => none
  | fuel + 1, start =>
      if start < (text.length : Int) then
        let e := computeEnd text size start
        (chunkItersGo text size overlap fuel (e - overlap)).map
          (fun ws => (start, e) :: ws)
      else some []

/-- The `(start, end)` windows of all iterations of `chunk_text`. -/
def chunkIters (text : List Char) (size overlap : Int) (fuel : Nat) :
    Option (List (Int × Int)) :=
  if text.isEmpty then some [] else chunkItersGo text size overlap fuel 0

/-- The windows of exactly those iterations whose chunk is appended to the
result (its content nonempty after stripping). -/
def chunkSpans (text : List Char) (size overlap : Int) (fuel : Nat) :
    Option (List (Int × Int)) :=
  (chunkIters text size overlap fuel).map
    (List.filter (fun se => !(pyStrip (pySlice text se.1 se.2)).isEmpty))

/-- No sentence-boundary marker of `puncts` occurs anywhere in `text`. -/
def noMarker (text : List Char) : Prop :=
  ∀ p ∈ puncts, rfindNat? text p = none

instance (text : List Char) : Decidable (noMarker text) := by
  unfold noMarker; infer_instance

/-- `p` occurs as a contiguous segment of `s`. -/
def occursIn (p s : List Char) : Prop := ∃ u v, u ++ p ++ v = s

/-- The chunk kept by one window of the loop: the window's content,
stripped, when nonempty. -/
def keepChunk (text : List Char) (se : Int × Int) : Option (List Char) :=
  if (pyStrip (pySlice text se.1 se.2)).isEmpty then none
  else some (pyStrip (pySlice text se.1 se.2))

/-- The sequence of values taken by the loop variable `start` of
`chunk_text`, ignoring the loop guard (iterating `start := end - overlap`). -/
def nthStart (text : List Char) (size overlap : Int) : Nat → Int
  | 0 => 0
  | n + 1 => computeEnd text size (nthStart text size overlap n) - overlap

/-- A 16-character text whose `'. '` marker at offset 6 makes the
`chunk_text` window stall for `chunk_size = 10, overlap = 5`: from start 3
the window `[3, 13)` has its last marker at relative offset 3, so
`end = 3 + 3 + 2 = 8` and the next start is `8 - 5 = 3` again. -/
def stallText : List Char :=
  List.replicate 6 'a' ++ ['.', ' '] ++ List.replicate 8 'b'

/-! ### Vector store (src/vector_store.py)

`get_embedding` calls the OpenAI API and returns `[]` on any exception
(lines 39-57); it is modelled as an abstract parameter
`embed : String → List Int` (an empty list signals failure, embedding
coordinates are abstracted to integers).  The ChromaDB collection is
modelled as a list of entries keyed by `id`; the external
`collection.query` / `collection.add` calls are abstract parameters that
can fail (`Except`). -/

/-- The per-chunk metadata dict built by `process_document` in src/app.py
(lines 108-116). -/
structure ChunkMeta where
  document_name : String
  chunk_id : Nat
  page : Nat
  uploaded_at : String
deriving DecidableEq

instance : Inhabited ChunkMeta := ⟨⟨"", 0, 0, ""⟩⟩

/-- One entry of the ChromaDB collection: a document chunk with its id,
metadata and embedding. -/
structure VSEntry where
  id : String
  document : String
  meta : ChunkMeta
  embedding : List Int
deriving DecidableEq

/-- The dict returned by `VectorStore.search`. -/
structure SearchResult where
  documents : List String
  metadatas : List ChunkMeta
  distances : List Int
deriving DecidableEq

/-- The nested result dict returned by `collection.query`. -/
structure RawQueryResult where
  documents : List (List String)
  metadatas : List (List ChunkMeta)
  distances : List (List Int)
deriving DecidableEq

/-- `results[key][0] if results[key] else []` (src/vector_store.py
lines 138-140). -/
def headOrNil {α : Type} (xs : List (List α)) : List α :=
  match xs with
  | [] => []
  | x :: _ => x

/-- `VectorStore.search` (src/vector_store.py lines 104-149).  `embed`
models `get_embedding` and `queryFn` models `collection.query` (whose
exceptions are caught and turned into the empty result). -/
def search (embed : String → List Int)
    (queryFn : List Int → Nat → Except String RawQueryResult)
    (query : String) (n_results : Nat) : SearchResult :=
  let query_embedding := embed query
  if query_embedding.isEmpty then ⟨[], [], []⟩
  else
    match queryFn query_embedding n_results with
    | Except.error _ => ⟨[], [], []⟩
    | Except.ok results =>
        ⟨headOrNil results.documents, headOrNil results.metadatas,
         headOrNil results.distances⟩

/-- Python `zip(a, b, c, d)`: truncates to the shortest input. -/
def zip4 {α β γ δ : Type} (as : List α) (bs : List β) (cs : List γ)
    (ds : List δ) : List (α × β × γ × δ) :=
  as.zip (bs.zip (cs.zip ds))

/-- `VectorStore.add_documents` (src/vector_store.py lines 59-102).
`addResult` models the outcome of the external `collection.add` call
(an exception makes the function return `False`); on success the surviving
tuples are appended to the collection. -/
def add_documents (embed : String → List Int) (addResult : Except String Unit)
    (store : List VSEntry) (chunks : List String)
    (metadatas : List ChunkMeta) (ids : List String) : Bool × List VSEntry :=
  let embeddings := chunks.map embed
  let valid_data := (zip4 chunks embeddings metadatas ids).filter
    (fun t => !t.2.1.isEmpty)
  if valid_data.isEmpty then (false, store)
  else
    match addResult with
    | Except.error _ => (false, store)
    | Except.ok _ =>
        (true, store ++ valid_data.map (fun t => ⟨t.2.2.2, t.1, t.2.2.1, t.2.1⟩))

/-- Index-based specification of `add_documents`, following the spec's
words: keep exactly the positions whose embedding generation succeeded,
preserving the position-by-position alignment of chunk, embedding,
metadata and id; fail when no position survives or the store rejects the
add.  To be compared with `add_documents` (translated from the source). -/
def add_documents_spec (embed : String → List Int)
    (addResult : Except String Unit) (store : List VSEntry)
    (chunks : List String) (metadatas : List ChunkMeta) (ids : List String) :
    Bool × List VSEntry :=
  let keep := (List.range chunks.length).filter
    (fun i => !(embed (chunks.getD i "")).isEmpty)
  let kept := keep.map (fun i =>
    VSEntry.mk (ids.getD i "") (chunks.getD i "")
      (metadatas.getD i default) (embed (chunks.getD i "")))
  if keep.isEmpty then (false, store)
  else
    match addResult with
    | Except.error _ => (false, store)
    | Except.ok _ => (true, store ++ kept)

/-- `VectorStore.delete_document` (src/vector_store.py lines 151-175):
collect the ids of entries whose metadata `document_name` matches, and
delete those ids when there are any. -/
def delete_document (store : List VSEntry) (document_name : String) :
    Bool × List VSEntry :=
  let matchingIds := (store.filter
    (fun e => e.meta.document_name == document_name)).map VSEntry.id
  if matchingIds.isEmpty then (false, store)
  else (true, store.filter (fun e => !(matchingIds.contains e.id)))

/-! ### Upload handling (src/app.py)

`hashlib.sha256` is modelled as an abstract parameter
`hashFn : List Nat → String` over the uploaded bytes, and
`datetime.now().isoformat()` as the parameter `now`.  On-disk storage is
modelled as an association list from path to bytes (`open(..., 'wb')`
overwrites). -/

/-- The `doc_info` dict built by `save_uploaded_file` (the Python key
`type` is the field `ftype` here). -/
structure DocInfo where
  name : String
  path : String
  hash : String
  size : Nat
  uploaded_at : String
  status : String
  ftype : String
deriving DecidableEq

/-- `save_uploaded_file` (src/app.py lines 49-78): hash the bytes, reject
a duplicate digest before any write, otherwise write the file and return
the new `doc_info`.  Returns ((doc_info, error), storage after the call). -/
def save_uploaded_file (hashFn : List Nat → String) (now : String)
    (documents : List DocInfo) (storage : List (String × List Nat))
    (name ftype : String) (fileBytes : List Nat) :
    (Option DocInfo × Option String) × List (String × List Nat) :=
  let file_hash := hashFn fileBytes
  if documents.any (fun d => d.hash == file_hash) then
    ((none, some ("Duplicate file detected")), storage)
  else
    let file_path := "data/" ++ name
    ((some ⟨name, file_path, file_hash, fileBytes.length, now, "uploaded", ftype⟩,
      none),
     (storage.filter (fun e => e.1 != file_path)) ++ [(file_path, fileBytes)])

/-- The sidebar upload flow of src/app.py (lines 151-160): the returned
`doc_info` is appended to the tracked documents when present.  Returns the
tracked documents, the storage, and the error message. -/
def uploadAndTrack (hashFn : List Nat → String) (now : String)
    (documents : List DocInfo) (storage : List (String × List Nat))
    (name ftype : String) (fileBytes : List Nat) :
    List DocInfo × List (String × List Nat) × Option String :=
  let r := save_uploaded_file hashFn now documents storage name ftype fileBytes
  match r.1.1 with
  | some d => (documents ++ [d], r.2, r.1.2)
  | none => (documents, r.2, r.1.2)

/-! ### Document processing (src/document_processor.py, src/ocr_processor.py)

Extraction of text from files via the external libraries (PyPDF2, fitz,
GPT-4 Vision) is modelled by the outcomes those calls produce:
`direct : Except String (List (Except String String))` is PyPDF2's view of
the file (`Except.error` = the open/parse raised; each page entry is the
outcome of `page.extract_text()`), `docOpen : Except String Nat` is
`fitz.open` yielding the page count, and
`ocrPage : Nat → Except String String` is the outcome of
`process_pdf_page_as_image` (which catches its own exceptions) per page.
Page texts are Lean `String`s; `String.length` is Python `len` (both count
code points). -/

/-- A page entry dict with keys `page_number`, `text`, `char_count`. -/
structure PdfPageEntry where
  page_number : Nat
  text : String
  char_count : Nat
deriving DecidableEq

/-- The dict a type-specific extractor returns to `process_file` (its
`metadata` is abstracted to the `method` entry, the only one the claims
mention). -/
structure ProcPayload where
  text : String
  pages : List PdfPageEntry
  method : String
deriving DecidableEq

/-- The dict returned by `DocumentProcessor.process_file`. -/
structure FileResult where
  text : String
  pages : List PdfPageEntry
  method : String
  status : String
  error : Option String
deriving DecidableEq

/-- `DocumentProcessor.process_file` (src/document_processor.py lines
27-56): `lookup` is `self.supported_types.get(file_type)` applied to the
file — `none` when the type is unsupported, `Except.error e` when the
extractor raises with message `e`, `Except.ok r` when it returns `r`. -/
def process_file (file_type : String) :
    Option (Except String ProcPayload) → FileResult
  | none => ⟨"", [], "", "unsupported_type",
      some ("Unsupported file type: " ++ file_type)⟩
  | some (Except.error e) => ⟨"", [], "", "error", some e⟩
  | some (Except.ok r) => ⟨r.text, r.pages, r.method, "success", none⟩

/-- The dict returned by `OCRProcessor.process_scanned_pdf`. -/
structure ScannedPdfResult where
  text : String
  pages : List PdfPageEntry
  status : String
  error : Option String
  num_pages : Nat
deriving DecidableEq

/-- `OCRProcessor.process_scanned_pdf` (src/ocr_processor.py lines
156-203): OCR the first `min(len(doc), max_pages)` pages, keep only the
pages whose transcription succeeded, and always report `success` unless
opening the document itself raised. -/
def process_scanned_pdf :
    Except String Nat → (Nat → Except String String) → Nat → ScannedPdfResult
  | Except.error e, _, _ => ⟨"", [], "error", some e, 0⟩
  | Except.ok numDocPages, ocrPage, max_pages =>
      let num_pages := min numDocPages max_pages
      let collected := (List.range num_pages).filterMap (fun i =>
        match ocrPage i with
        | Except.ok t => some (i, t)
        | Except.error _ => none)
      ⟨String.intercalate "\n\n"
         (collected.map (fun p => "[Page " ++ toString (p.1 + 1) ++ "]\n" ++ p.2)),
       collected.map (fun p => ⟨p.1 + 1, p.2, p.2.length⟩),
       "success", none, num_pages⟩

/-- The page texts extracted before the first `extract_text()` exception
(the loop of src/document_processor.py lines 70-80 stops at the raise). -/
def takeWhileOk : List (Except String String) → List String
  | [] => []
  | Except.ok t :: rest => t :: takeWhileOk rest
  | Except.error _ :: _ => []

/-- Whether some `extract_text()` call raised. -/
def anyErrorB (l : List (Except String String)) : Bool :=
  l.any (fun r => match r with | Except.ok _ => false | Except.error _ => true)

/-- `len(text.strip())` for a page text. -/
def stripLen (s : String) : Nat := (pyStrip s.data).length

/-- `DocumentProcessor.process_pdf` (src/document_processor.py lines
58-113).  An exception while iterating pages is caught at line 102, after
which the partial direct extraction is returned; otherwise, if the average
stripped page length is below 30 and OCR is available, a successful OCR
result replaces the direct extraction.  The float comparison
`total/num < 30` is exact here: for `num > 0` it is `total < 30*num`, and
for `num = 0` the code sets the average to 0. -/
def process_pdf (ocrAvailable : Bool) :
    Except String (List (Except String String)) → Except String Nat →
      (Nat → Except String String) → ProcPayload
  | Except.error _, _, _ => ⟨"", [], "text_extraction"⟩
  | Except.ok pageResults, docOpen, ocrPage =>
      let texts := takeWhileOk pageResults
      let pages := texts.enum.map
        (fun p => PdfPageEntry.mk (p.1 + 1) p.2 p.2.length)
      let directPayload : ProcPayload :=
        ⟨String.intercalate "\n\n" texts, pages, "text_extraction"⟩
      if anyErrorB pageResults then directPayload
      else
        let num_pages := pageResults.length
        let total_text_length := (texts.map stripLen).sum
        let avgLt30 : Bool :=
          decide (num_pages = 0) || decide (total_text_length < 30 * num_pages)
        if avgLt30 && ocrAvailable then
          let ocr := process_scanned_pdf docOpen ocrPage (min num_pages 20)
          if ocr.status == "success" then ⟨ocr.text, ocr.pages, "ocr"⟩
          else directPayload
        else directPayload

lemma isPrefixOf_iff_append {p x : List Char} :
    p.isPrefixOf x = true ↔ ∃ r, p ++ r = x := by
  induction p generalizing x with
  | nil => simp [List.isPrefixOf]
  | cons a as ih =>
      cases x with
      | nil => simp [List.isPrefixOf]
      | cons b bs =>
          simp only [List.isPrefixOf, Bool.and_eq_true, beq_iff_eq, ih,
            List.cons_append, List.cons.injEq]
          constructor
          · rintro ⟨hab, r, hr⟩; exact ⟨r, hab, hr⟩
          · rintro ⟨r, hab, hr⟩; exact ⟨hab, r, hr⟩

lemma occAux_sound {p : List Char} :
    ∀ (s : List Char) (i j : Nat), j ∈ occurrencesAux p s i →
      ∃ k, j = i + k ∧ p.isPrefixOf (s.drop k) = true := by
  intro s
  induction s with
  | nil => intro i j h; simp [occurrencesAux] at h
  | cons c rest ih =>
      intro i j h
      simp only [occurrencesAux, List.mem_append] at h
      rcases h with h | h
      · cases hb : p.isPrefixOf (c :: rest) with
        | false => simp [hb] at h
        | true =>
            simp [hb] at h
            exact ⟨0, by omega, by simpa using hb⟩
      · rcases ih (i + 1) j h with ⟨k, hk, hpre⟩
        exact ⟨k + 1, by omega, by simpa using hpre⟩

lemma occAux_complete {p : List Char} (hp : p ≠ []) :
    ∀ (s : List Char) (i k : Nat), p.isPrefixOf (s.drop k) = true →
      (i + k) ∈ occurrencesAux p s i := by
  intro s
  induction s with
  | nil =>
      intro i k h
      rcases p with _ | ⟨a, as⟩
      · exact absurd rfl hp
      · simp [List.isPrefixOf] at h
  | cons c rest ih =>
      intro i k h
      cases k with
      | zero =>
          simp only [List.drop_zero] at h
          simp [occurrencesAux, h]
      | succ k' =>
          simp only [List.drop_succ_cons] at h
          have hmem := ih (i + 1) k' h
          simp only [occurrencesAux, List.mem_append]
          right
          have heq : i + (k' + 1) = i + 1 + k' := by omega
          rw [heq]
          exact hmem

lemma rfindNat?_eq_some_occursIn {s p : List Char} {j : Nat}
    (h : rfindNat? s p = some j) : occursIn p s := by
  have hmem : j ∈ occurrencesAux p s 0 := by
    have := List.getLast?_eq_some_iff.mp h
    rcases this with ⟨l, hl⟩
    rw [hl]; simp
  rcases occAux_sound s 0 j hmem with ⟨k, _, hpre⟩
  rcases isPrefixOf_iff_append.mp hpre with ⟨r, hr⟩
  exact ⟨s.take k, r, by rw [List.append_assoc, hr, List.take_append_drop]⟩

lemma rfindNat?_isSome_of_occursIn {s p : List Char} (hp : p ≠ [])
    (h : occursIn p s) : rfindNat? s p ≠ none := by
  rcases h with ⟨u, v, huv⟩
  have hpre : p.isPrefixOf (s.drop u.length) = true := by
    apply isPrefixOf_iff_append.mpr ⟨v, ?_⟩
    rw [← huv, List.append_assoc, List.drop_left]
  have hmem := occAux_complete hp s 0 u.length hpre
  intro hnone
  rw [rfindNat?] at hnone
  rw [List.getLast?_eq_none_iff] at hnone
  rw [hnone] at hmem
  simp at hmem

lemma occursIn_pySlice {p t : List Char} {a b : Int}
    (h : occursIn p (pySlice t a b)) : occursIn p t := by
  rcases h with ⟨u, v, huv⟩
  refine ⟨(t.take (pyIdx t.length b)).take (pyIdx t.length a) ++ u,
          v ++ t.drop (pyIdx t.length b), ?_⟩
  have h1 : (t.take (pyIdx t.length b)).take (pyIdx t.length a) ++
      pySlice t a b = t.take (pyIdx t.length b) := by
    rw [pySlice, List.take_append_drop]
  calc ((t.take (pyIdx t.length b)).take (pyIdx t.length a) ++ u) ++ p ++
        (v ++ t.drop (pyIdx t.length b))
      = (t.take (pyIdx t.length b)).take (pyIdx t.length a) ++
          ((u ++ p ++ v) ++ t.drop (pyIdx t.length b)) := by
        simp [List.append_assoc]
    _ = (t.take (pyIdx t.length b)).take (pyIdx t.length a) ++
          (pySlice t a b ++ t.drop (pyIdx t.length b)) := by rw [huv]
    _ = t := by
        rw [← List.append_assoc, h1, List.take_append_drop]

lemma puncts_ne_nil : ∀ p ∈ puncts, p ≠ [] := by decide

lemma noMarker_rfind_slice {text : List Char} (hm : noMarker text)
    {a b : Int} : ∀ p ∈ puncts, rfindNat? (pySlice text a b) p = none := by
  intro p hp
  rcases hfind : rfindNat? (pySlice text a b) p with _ | j
  · rfl
  · exfalso
    have hocc := rfindNat?_eq_some_occursIn hfind
    have := rfindNat?_isSome_of_occursIn (puncts_ne_nil p hp)
      (occursIn_pySlice hocc)
    exact this (hm p hp)

lemma boundaryEnd_of_noMarker {text : List Char} (hm : noMarker text)
    (a b : Int) : boundaryEnd (pySlice text a b) = none := by
  rw [boundaryEnd, List.findSome?_eq_none_iff]
  intro p hp
  rw [noMarker_rfind_slice hm p hp]
  rfl

lemma computeEnd_of_noMarker {text : List Char} (hm : noMarker text)
    (size start : Int) : computeEnd text size start = start + size := by
  rw [computeEnd]
  split
  · rw [boundaryEnd_of_noMarker hm]
  · rfl

lemma dropWhile_eq_self_of_not {s : List Char}
    (h : ∀ c ∈ s, pyIsSpace c = false) : s.dropWhile pyIsSpace = s := by
  cases s with
  | nil => rfl
  | cons c t =>
      rw [List.dropWhile_cons, h c (by simp)]
      simp

lemma pyStrip_eq_self {s : List Char}
    (h : ∀ c ∈ s, pyIsSpace c = false) : pyStrip s = s := by
  have hr : pyRStrip s = s := by
    rw [pyRStrip, dropWhile_eq_self_of_not (fun c hc => h c (by
      rw [List.mem_reverse] at hc; exact hc)), List.reverse_reverse]
  rw [pyStrip, hr, pyLStrip, dropWhile_eq_self_of_not h]

lemma mem_pySlice {c : Char} {t : List Char} {a b : Int}
    (h : c ∈ pySlice t a b) : c ∈ t := by
  rw [pySlice] at h
  exact List.mem_of_mem_take (List.mem_of_mem_drop h)

lemma pyIdx_le (L : Nat) (i : Int) : pyIdx L i ≤ L := by
  rw [pyIdx]; split <;> omega

lemma length_pySlice (t : List Char) (a b : Int) :
    (pySlice t a b).length = pyIdx t.length b - pyIdx t.length a := by
  rw [pySlice, List.length_drop, List.length_take,
    Nat.min_eq_left (pyIdx_le t.length b)]

lemma isEmpty_false_of_ne_nil {α : Type} {l : List α} (h : l ≠ []) :
    l.isEmpty = false := by
  cases l with
  | nil => exact absurd rfl h
  | cons a t => rfl

lemma pyIdx_lt_pyIdx {L : Nat} {a b : Int} (h0 : 0 ≤ a)
    (haL : a < (L : Int)) (hab : a < b) : pyIdx L a < pyIdx L b := by
  rw [pyIdx, pyIdx, if_neg (by omega), if_neg (by omega)]
  omega

/-- One iteration of the `chunk_text` loop on a marker-free,
whitespace-free text: the window `[s, s+size)` is appended verbatim and the
start advances to `s + size - overlap`. -/
lemma chunkGo_step_noMarker (text : List Char) (size overlap : Int)
    (fuel : Nat) (s : Int) (acc : List (List Char)) (hm : noMarker text)
    (hw : ∀ c ∈ text, pyIsSpace c = false) (h0 : 0 ≤ s)
    (hL : s < (text.length : Int)) (hsz : 0 < size) :
    chunkGo text size overlap (fuel + 1) s acc =
      chunkGo text size overlap fuel (s + size - overlap)
        (acc ++ [pySlice text s (s + size)]) := by
  have hstrip : pyStrip (pySlice text s (s + size)) = pySlice text s (s + size) :=
    pyStrip_eq_self (fun c hc => hw c (mem_pySlice hc))
  have hlen : 0 < (pySlice text s (s + size)).length := by
    rw [length_pySlice]
    have := pyIdx_lt_pyIdx h0 hL (show s < s + size by omega)
    omega
  have hne : (pySlice text s (s + size)).isEmpty = false :=
    isEmpty_false_of_ne_nil (by intro h; rw [h] at hlen; simp at hlen)
  rw [chunkGo, if_pos hL, computeEnd_of_noMarker hm]
  simp [hstrip, hne]

/-- One iteration of the instrumented loop on a marker-free text. -/
lemma chunkItersGo_step_noMarker (text : List Char) (size overlap : Int)
    (fuel : Nat) (s : Int) (hm : noMarker text)
    (hL : s < (text.length : Int)) :
    chunkItersGo text size overlap (fuel + 1) s =
      (chunkItersGo text size overlap fuel (s + size - overlap)).map
        (fun ws => (s, s + size) :: ws) := by
  rw [chunkItersGo, if_pos hL, computeEnd_of_noMarker hm]

/-- On a marker-free text every iteration advances the start by the fixed
positive amount `size - overlap`, so `text.length` extra units of fuel make
the loop finish from any nonnegative start. -/
lemma chunkGo_isSome_of_noMarker {text : List Char} {size overlap : Int}
    (hm : noMarker text) (hlt : overlap < size) :
    ∀ (f : Nat) (s : Int) (acc : List (List Char)), 0 ≤ s →
      (text.length : Int) ≤ s + f →
      (chunkGo text size overlap (f + 1) s acc).isSome = true := by
  intro f
  induction f with
  | zero =>
      intro s acc h0 hle
      rw [chunkGo, if_neg (by push_cast at hle ⊢; omega)]
      rfl
  | succ f ih =>
      intro s acc h0 hle
      rw [chunkGo]
      split
      · rw [computeEnd_of_noMarker hm]
        apply ih
        · omega
        · push_cast at hle ⊢
          omega
      · rfl

/-- Whenever the instrumented loop finishes, the recorded windows jointly
cover every position from the current start up to the end of the text. -/
lemma chunkItersGo_cover {text : List Char} {size overlap : Int}
    (hov : 0 ≤ overlap) :
    ∀ (fuel : Nat) (s : Int) (ws : List (Int × Int)),
      chunkItersGo text size overlap fuel s = some ws →
      ∀ k : Int, s ≤ k → k < (text.length : Int) →
        ∃ se ∈ ws, se.1 ≤ k ∧ k < se.2 := by
  intro fuel
  induction fuel with
  | zero => intro s ws h; simp [chunkItersGo] at h
  | succ fuel ih =>
      intro s ws h k hsk hkL
      by_cases hs : s < (text.length : Int)
      · simp only [chunkItersGo, if_pos hs] at h
        rcases hrec : chunkItersGo text size overlap fuel
            (computeEnd text size s - overlap) with _ | ws'
        · rw [hrec] at h; simp at h
        · rw [hrec] at h
          simp only [Option.map_some', Option.some.injEq] at h
          subst h
          by_cases hk : k < computeEnd text size s
          · exact ⟨(s, computeEnd text size s), by simp, hsk, hk⟩
          · rcases ih (computeEnd text size s - overlap) ws' hrec k
                (by omega) hkL with ⟨se, hse, h1, h2⟩
            exact ⟨se, by simp [hse], h1, h2⟩
      · simp only [chunkItersGo, if_neg hs, Option.some.injEq] at h
        subst h
        omega

/-- The plain loop is the instrumented loop with each window sliced,
stripped, and kept when nonempty. -/
lemma chunkGo_eq_itersGo (text : List Char) (size overlap : Int) :
    ∀ (fuel : Nat) (s : Int) (acc : List (List Char)),
      chunkGo text size overlap fuel s acc =
        (chunkItersGo text size overlap fuel s).map
          (fun ws => acc ++ ws.filterMap (keepChunk text)) := by
  intro fuel
  induction fuel with
  | zero => intro s acc; rfl
  | succ fuel ih =>
      intro s acc
      by_cases hs : s < (text.length : Int)
      · simp only [chunkGo, chunkItersGo, if_pos hs]
        rw [ih]
        rcases hrec : chunkItersGo text size overlap fuel
            (computeEnd text size s - overlap) with _ | ws'
        · rfl
        · simp only [Option.map_some', Option.some.injEq, List.filterMap_cons]
          by_cases hc : (pyStrip (pySlice text s (computeEnd text size s))).isEmpty
          · rw [if_pos hc]
            rw [keepChunk, if_pos hc]
          · simp only [Bool.not_eq_true] at hc
            rw [if_neg (by rw [hc]; exact Bool.false_ne_true)]
            rw [keepChunk, if_neg (by rw [hc]; exact Bool.false_ne_true)]
            simp [List.append_assoc]
      · simp only [chunkGo, chunkItersGo, if_neg hs]
        simp

/-- `chunk_text` returns exactly the stripped contents of the windows kept
by `chunkSpans`. -/
lemma chunk_text_eq_spans (text : List Char) (size overlap : Int)
    (fuel : Nat) :
    chunk_text text size overlap fuel =
      (chunkSpans text size overlap fuel).map
        (List.map (fun se => pyStrip (pySlice text se.1 se.2))) := by
  have hfm : ∀ ws : List (Int × Int),
      ws.filterMap (keepChunk text) =
      (ws.filter (fun se => !(pyStrip (pySlice text se.1 se.2)).isEmpty)).map
        (fun se => pyStrip (pySlice text se.1 se.2)) := by
    intro ws
    induction ws with
    | nil => rfl
    | cons se t iht =>
        rw [List.filterMap_cons, List.filter_cons]
        by_cases hc : (pyStrip (pySlice text se.1 se.2)).isEmpty
        · rw [keepChunk, if_pos hc, iht]
          simp [hc]
        · simp only [Bool.not_eq_true] at hc
          rw [keepChunk, if_neg (by rw [hc]; exact Bool.false_ne_true), iht]
          simp [hc]
  rw [chunk_text, chunkSpans, chunkIters]
  by_cases hemp : text.isEmpty
  · simp [hemp]
  · simp only [hemp, Bool.false_eq_true, if_false]
    rw [chunkGo_eq_itersGo]
    rcases h : chunkItersGo text size overlap fuel 0 with _ | ws
    · rfl
    · simp [hfm]

lemma eq_nil_of_isEmpty {l : List Char} (h : l.isEmpty = true) : l = [] := by
  cases l with
  | nil => rfl
  | cons a t => simp [List.isEmpty] at h

lemma chunkGo_stop (text : List Char) (size overlap : Int) (fuel : Nat)
    (s : Int) (acc : List (List Char))
    (h : ¬ s < (text.length : Int)) :
    chunkGo text size overlap (fuel + 1) s acc = some acc := by
  rw [chunkGo, if_neg h]

lemma chunkItersGo_stop (text : List Char) (size overlap : Int) (fuel : Nat)
    (s : Int) (h : ¬ s < (text.length : Int)) :
    chunkItersGo text size overlap (fuel + 1) s = some [] := by
  rw [chunkItersGo, if_neg h]

/-- One iteration whose window strips to empty appends nothing. -/
lemma chunkGo_step_skip (text : List Char) (size overlap : Int) (fuel : Nat)
    (s : Int) (acc : List (List Char)) (hm : noMarker text)
    (hall : pyStrip (pySlice text s (s + size)) = [])
    (hL : s < (text.length : Int)) :
    chunkGo text size overlap (fuel + 1) s acc =
      chunkGo text size overlap fuel (s + size - overlap) acc := by
  rw [chunkGo, if_pos hL, computeEnd_of_noMarker hm]
  simp [hall]

lemma occursIn_mem {p s : List Char} (h : occursIn p s) :
    ∀ c ∈ p, c ∈ s := by
  rcases h with ⟨u, v, rfl⟩
  intro c hc
  simp [hc]

/-- A text consisting of one repeated character that is not the first
character of any marker contains no marker. -/
lemma noMarker_replicate (n : Nat) (ch : Char) (h1 : ch ≠ '.')
    (h2 : ch ≠ '。') (h3 : ch ≠ '！') (h4 : ch ≠ '؟') (h5 : ch ≠ '\n') :
    noMarker (List.replicate n ch) := by
  intro p hp
  rcases hr : rfindNat? (List.replicate n ch) p with _ | j
  · rfl
  · exfalso
    have hmem := occursIn_mem (rfindNat?_eq_some_occursIn hr)
    simp only [puncts, List.mem_cons, List.not_mem_nil, or_false] at hp
    rcases hp with rfl | rfl | rfl | rfl | rfl
    · exact h1 (List.eq_of_mem_replicate (hmem '.' (by simp))).symm
    · exact h2 (List.eq_of_mem_replicate (hmem '。' (by simp))).symm
    · exact h3 (List.eq_of_mem_replicate (hmem '！' (by simp))).symm
    · exact h4 (List.eq_of_mem_replicate (hmem '؟' (by simp))).symm
    · exact h5 (List.eq_of_mem_replicate (hmem '\n' (by simp))).symm

lemma pySlice_replicate (n : Nat) (ch : Char) (a b : Int) :
    pySlice (List.replicate n ch) a b =
      List.replicate (pyIdx n b - pyIdx n a) ch := by
  rw [pySlice, List.length_replicate, List.take_replicate,
    List.drop_replicate]
  congr 1
  have := pyIdx_le n b
  omega

lemma dropWhile_space_replicate (k : Nat) :
    (List.replicate k ' ').dropWhile pyIsSpace = [] := by
  induction k with
  | zero => rfl
  | succ k ih =>
      rw [List.replicate_succ, List.dropWhile_cons, if_pos (by decide)]
      exact ih

lemma pyStrip_replicate_space (k : Nat) :
    pyStrip (List.replicate k ' ') = [] := by
  rw [pyStrip, pyRStrip, List.reverse_replicate, dropWhile_space_replicate,
    List.reverse_nil, pyLStrip, List.dropWhile_nil]

/-! ### Claims C1-C4: the chunker -/

/-- C1 (amended): for a 2500-character input containing no boundary marker
and no whitespace character, `chunk_text(text, 1000, 200)` runs windows
starting exactly at 0, 800, 1600, 2400 (step `size - overlap = 800`), each
returned chunk is the verbatim substring of its window, and the last chunk
has length 100.  (Without the whitespace restriction the claim fails:
stripping can shorten or drop chunks, see the counterexample.) -/
theorem c1_chunk_offsets (text : List Char) (h2500 : text.length = 2500)
    (hm : noMarker text) (hw : ∀ c ∈ text, pyIsSpace c = false) :
    chunkIters text 1000 200 5 =
      some [(0, 1000), (800, 1800), (1600, 2600), (2400, 3400)] ∧
    chunk_text text 1000 200 5 =
      some [pySlice text 0 1000, pySlice text 800 1800,
            pySlice text 1600 2600, pySlice text 2400 3400] ∧
    (pySlice text 2400 3400).length = 100 := by
  have hL : (text.length : Int) = 2500 := by exact_mod_cast h2500
  have hne : text.isEmpty = false := by
    cases text with
    | nil => simp at h2500
    | cons a l => rfl
  refine ⟨?_, ?_, ?_⟩
  · have t5 : chunkItersGo text 1000 200 1 3200 = some [] :=
      chunkItersGo_stop text 1000 200 0 3200 (by rw [hL]; decide)
    have t4 : chunkItersGo text 1000 200 2 2400 = some [(2400, 3400)] :=
      (chunkItersGo_step_noMarker text 1000 200 1 2400 hm
        (by rw [hL]; decide)).trans (by norm_num [t5])
    have t3 : chunkItersGo text 1000 200 3 1600 =
        some [(1600, 2600), (2400, 3400)] :=
      (chunkItersGo_step_noMarker text 1000 200 2 1600 hm
        (by rw [hL]; decide)).trans (by norm_num [t4])
    have t2 : chunkItersGo text 1000 200 4 800 =
        some [(800, 1800), (1600, 2600), (2400, 3400)] :=
      (chunkItersGo_step_noMarker text 1000 200 3 800 hm
        (by rw [hL]; decide)).trans (by norm_num [t3])
    have t1 : chunkItersGo text 1000 200 5 0 =
        some [(0, 1000), (800, 1800), (1600, 2600), (2400, 3400)] :=
      (chunkItersGo_step_noMarker text 1000 200 4 0 hm
        (by rw [hL]; decide)).trans (by norm_num [t2])
    simp only [chunkIters, hne, Bool.false_eq_true, if_false]
    exact t1
  · have g5 : chunkGo text 1000 200 1 3200
        [pySlice text 0 1000, pySlice text 800 1800,
         pySlice text 1600 2600, pySlice text 2400 3400] =
        some [pySlice text 0 1000, pySlice text 800 1800,
              pySlice text 1600 2600, pySlice text 2400 3400] :=
      chunkGo_stop text 1000 200 0 3200 _ (by rw [hL]; decide)
    have g4 : chunkGo text 1000 200 2 2400
        [pySlice text 0 1000, pySlice text 800 1800, pySlice text 1600 2600] =
        some [pySlice text 0 1000, pySlice text 800 1800,
              pySlice text 1600 2600, pySlice text 2400 3400] :=
      (chunkGo_step_noMarker text 1000 200 1 2400 _ hm hw (by decide)
        (by rw [hL]; decide) (by decide)).trans (by norm_num [g5])
    have g3 : chunkGo text 1000 200 3 1600
        [pySlice text 0 1000, pySlice text 800 1800] =
        some [pySlice text 0 1000, pySlice text 800 1800,
              pySlice text 1600 2600, pySlice text 2400 3400] :=
      (chunkGo_step_noMarker text 1000 200 2 1600 _ hm hw (by decide)
        (by rw [hL]; decide) (by decide)).trans (by norm_num [g4])
    have g2 : chunkGo text 1000 200 4 800 [pySlice text 0 1000] =
        some [pySlice text 0 1000, pySlice text 800 1800,
              pySlice text 1600 2600, pySlice text 2400 3400] :=
      (chunkGo_step_noMarker text 1000 200 3 800 _ hm hw (by decide)
        (by rw [hL]; decide) (by decide)).trans (by norm_num [g3])
    have g1 : chunkGo text 1000 200 5 0 [] =
        some [pySlice text 0 1000, pySlice text 800 1800,
              pySlice text 1600 2600, pySlice text 2400 3400] :=
      (chunkGo_step_noMarker text 1000 200 4 0 _ hm hw (by decide)
        (by rw [hL]; decide) (by decide)).trans (by norm_num [g2])
    simp only [chunk_text, hne, Bool.false_eq_true, if_false]
    exact g1
  · rw [length_pySlice, h2500]
    decide

/-- C1 witness: the all-`'a'` text of length 2500 satisfies the amended
claim's hypotheses, and the windows start at 0, 800, 1600, 2400. -/
theorem c1_chunk_offsets_witness :
    chunkIters (List.replicate 2500 'a') 1000 200 5 =
      some [(0, 1000), (800, 1800), (1600, 2600), (2400, 3400)] :=
  (c1_chunk_offsets (List.replicate 2500 'a') (by simp)
    (noMarker_replicate 2500 'a' (by decide) (by decide) (by decide)
      (by decide) (by decide))
    (by
      intro c hc
      rw [List.mem_replicate] at hc
      rw [hc.2]
      rfl)).1

/-- C1 counterexample: the all-space text of length 2500 contains no
boundary marker, yet `chunk_text` returns no chunk at all (every window
strips to empty), so there are no chunks starting at 0, 800, 1600, 2400
and no last chunk of length 100. -/
theorem c1_chunk_offsets_counterexample :
    (List.replicate 2500 ' ' : List Char).length = 2500 ∧
    noMarker (List.replicate 2500 ' ') ∧
    chunk_text (List.replicate 2500 ' ') 1000 200 5 = some [] := by
  have hm : noMarker (List.replicate 2500 ' ') :=
    noMarker_replicate 2500 ' ' (by decide) (by decide) (by decide)
      (by decide) (by decide)
  refine ⟨by simp, hm, ?_⟩
  have hL : ((List.replicate 2500 ' ' : List Char).length : Int) = 2500 := by
    simp
  have hne : (List.replicate 2500 ' ' : List Char).isEmpty = false := by
    simp [List.isEmpty_iff]
  have hstrip : ∀ a b : Int,
      pyStrip (pySlice (List.replicate 2500 ' ') a b) = [] := by
    intro a b
    rw [pySlice_replicate]
    exact pyStrip_replicate_space _
  have k5 : chunkGo (List.replicate 2500 ' ') 1000 200 1 3200 [] = some [] :=
    chunkGo_stop _ 1000 200 0 3200 [] (by rw [hL]; decide)
  have k4 : chunkGo (List.replicate 2500 ' ') 1000 200 2 2400 [] = some [] :=
    (chunkGo_step_skip _ 1000 200 1 2400 [] hm (hstrip 2400 (2400 + 1000))
      (by rw [hL]; decide)).trans (by norm_num [k5])
  have k3 : chunkGo (List.replicate 2500 ' ') 1000 200 3 1600 [] = some [] :=
    (chunkGo_step_skip _ 1000 200 2 1600 [] hm (hstrip 1600 (1600 + 1000))
      (by rw [hL]; decide)).trans (by norm_num [k4])
  have k2 : chunkGo (List.replicate 2500 ' ') 1000 200 4 800 [] = some [] :=
    (chunkGo_step_skip _ 1000 200 3 800 [] hm (hstrip 800 (800 + 1000))
      (by rw [hL]; decide)).trans (by norm_num [k3])
  have k1 : chunkGo (List.replicate 2500 ' ') 1000 200 5 0 [] = some [] :=
    (chunkGo_step_skip _ 1000 200 4 0 [] hm (hstrip 0 (0 + 1000))
      (by rw [hL]; decide)).trans (by norm_num [k2])
  simp only [chunk_text, hne, Bool.false_eq_true, if_false]
  exact k1

/-- C2 (amended): whenever the `chunk_text` loop finishes, the iterated
windows jointly cover every character of the input, and no returned chunk
is empty after trimming.  (A character can still fail to lie in any
*returned* chunk's window: windows whose content strips to empty are
dropped, see the counterexample.) -/
theorem c2_cover_and_nonempty (text : List Char) (size overlap : Int)
    (fuel : Nat) (ws : List (Int × Int)) (hov : 0 ≤ overlap)
    (hiters : chunkIters text size overlap fuel = some ws) :
    (∀ k : Int, 0 ≤ k → k < (text.length : Int) →
       ∃ se ∈ ws, se.1 ≤ k ∧ k < se.2) ∧
    (∀ chunks, chunk_text text size overlap fuel = some chunks →
       ∀ c ∈ chunks, c ≠ []) := by
  constructor
  · intro k hk0 hkL
    by_cases hemp : text.isEmpty = true
    · have hnil : text = [] := eq_nil_of_isEmpty hemp
      rw [hnil] at hkL
      simp at hkL
      omega
    · rw [chunkIters, if_neg hemp] at hiters
      exact chunkItersGo_cover hov fuel 0 ws hiters k hk0 hkL
  · intro chunks hct c hc
    rw [chunk_text_eq_spans] at hct
    rcases hsp : chunkSpans text size overlap fuel with _ | sps
    · rw [hsp] at hct; simp at hct
    · rw [hsp] at hct
      simp only [Option.map_some', Option.some.injEq] at hct
      subst hct
      rcases List.mem_map.mp hc with ⟨se, hse, heq⟩
      rw [chunkSpans] at hsp
      rcases hit : chunkIters text size overlap fuel with _ | ws0
      · rw [hit] at hsp; simp at hsp
      · rw [hit] at hsp
        simp only [Option.map_some', Option.some.injEq] at hsp
        subst hsp
        rcases List.mem_filter.mp hse with ⟨_, hpred⟩
        rw [← heq]
        intro hnil
        rw [hnil] at hpred
        simp at hpred

/-- C2 witness: for the one-character text `['a']` with the recorded
window list `[(0, 2)]`, position 0 is covered. -/
theorem c2_cover_and_nonempty_witness :
    ∃ se ∈ [((0 : Int), (2 : Int))], se.1 ≤ 0 ∧ (0 : Int) < se.2 :=
  (c2_cover_and_nonempty ['a'] 2 1 2 [(0, 2)] (by decide) (by decide)).1
    0 (by decide) (by decide)

/-- C2 counterexample: on the one-character input `[' ']` (defaults
`1000/200`) the single window strips to empty and is dropped, so the loop
terminates with no chunks at all and the character at position 0 lies in
no returned chunk's covered range. -/
theorem c2_cover_and_nonempty_counterexample :
    (0 : Int) < (([' '] : List Char).length : Int) ∧
    chunkIters [' '] 1000 200 2 = some [(0, 1000)] ∧
    chunkSpans [' '] 1000 200 2 = some [] ∧
    chunk_text [' '] 1000 200 2 = some [] ∧
    ¬ ∃ se ∈ ([] : List (Int × Int)), se.1 ≤ 0 ∧ (0 : Int) < se.2 := by
  refine ⟨by decide, by decide, by decide, by decide, by decide⟩

/-- C3 (amended): on a text containing no boundary marker, with
`0 ≤ overlap < chunk_size`, every iteration computes `end = start + size`
— so the start advances by exactly `size - overlap > 0` — and `chunk_text`
terminates with `text.length + 1` units of fuel.  (With a marker early in
a window the advance can be zero and the loop runs forever, see the
counterexample.) -/
theorem c3_advance_and_termination (text : List Char) (size overlap : Int)
    (_hov : 0 ≤ overlap) (hlt : overlap < size) (hm : noMarker text) :
    (∀ s : Int, computeEnd text size s = s + size) ∧
    (chunk_text text size overlap (text.length + 1)).isSome = true := by
  refine ⟨fun s => computeEnd_of_noMarker hm size s, ?_⟩
  rw [chunk_text]
  by_cases hemp : text.isEmpty = true
  · rw [if_pos hemp]; rfl
  · rw [if_neg hemp]
    exact chunkGo_isSome_of_noMarker hm hlt text.length 0 []
      (by omega) (by omega)

/-- C3 witness: on the marker-free text `"abc"` with `size 2, overlap 1`
every end is `start + 2` and the loop finishes. -/
theorem c3_advance_and_termination_witness :
    computeEnd ['a', 'b', 'c'] 2 5 = 7 ∧
    (chunk_text ['a', 'b', 'c'] 2 1 (['a', 'b', 'c'].length + 1)).isSome =
      true :=
  ⟨(c3_advance_and_termination ['a', 'b', 'c'] 2 1 (by decide) (by decide)
      (by decide)).1 5,
   (c3_advance_and_termination ['a', 'b', 'c'] 2 1 (by decide) (by decide)
      (by decide)).2⟩

lemma stallText_facts :
    (stallText.length : Int) = 16 ∧
    computeEnd stallText 10 0 = 8 ∧
    computeEnd stallText 10 3 = 8 := by
  refine ⟨by decide, by decide, by decide⟩

lemma chunkGo_stall_3 :
    ∀ (fuel : Nat) (acc : List (List Char)),
      chunkGo stallText 10 5 fuel 3 acc = none := by
  intro fuel
  induction fuel with
  | zero => intro acc; rfl
  | succ fuel ih =>
      intro acc
      rw [chunkGo, if_pos (by rw [stallText_facts.1]; decide),
        stallText_facts.2.2]
      exact ih _

lemma chunkGo_stall_0 :
    ∀ (fuel : Nat) (acc : List (List Char)),
      chunkGo stallText 10 5 fuel 0 acc = none := by
  intro fuel acc
  cases fuel with
  | zero => rfl
  | succ fuel =>
      rw [chunkGo, if_pos (by rw [stallText_facts.1]; decide),
        stallText_facts.2.1]
      exact chunkGo_stall_3 _ _

lemma chunk_text_stall (fuel : Nat) :
    chunk_text stallText 10 5 fuel = none := by
  rw [chunk_text, if_neg (by decide)]
  exact chunkGo_stall_0 fuel []

/-- C3 counterexample: on `stallText` with `chunk_size = 10, overlap = 5`
(which satisfy `0 ≤ overlap < chunk_size`) the loop start reaches 3 after
one iteration and stays at 3 forever — the second iteration advances by
zero, and `chunk_text` does not finish even with 1000000 units of fuel. -/
theorem c3_advance_and_termination_counterexample :
    (0 : Int) ≤ 5 ∧ (5 : Int) < 10 ∧
    nthStart stallText 10 5 1 = 3 ∧
    nthStart stallText 10 5 2 = 3 ∧
    (3 : Int) < (stallText.length : Int) ∧
    chunk_text stallText 10 5 1000000 = none :=
  ⟨by decide, by decide, by decide, by decide, by decide,
    chunk_text_stall 1000000⟩

/-- C4 (amended): for every input of length at most
`chunk_size - overlap` (800 at the defaults), `chunk_text` returns exactly
one chunk — the trimmed input — or no chunk when the input trims to empty.
(The claim's bound `length < chunk_size` is wrong: inputs of length 801 to
999 produce a second chunk, see the counterexample.) -/
theorem c4_short_input (text : List Char) (size overlap : Int)
    (hov : 0 ≤ overlap) (hlt : overlap < size)
    (hshort : (text.length : Int) ≤ size - overlap) :
    chunk_text text size overlap 2 =
      some (if pyStrip text = [] then [] else [pyStrip text]) := by
  by_cases hemp : text.isEmpty = true
  · have hnil : text = [] := eq_nil_of_isEmpty hemp
    subst hnil
    simp [chunk_text, pyStrip, pyLStrip, pyRStrip]
  · rw [chunk_text, if_neg hemp]
    have hLpos : (0 : Int) < (text.length : Int) := by
      cases text with
      | nil => exact absurd rfl hemp
      | cons a l => simp
    rw [chunkGo, if_pos hLpos]
    have hce : computeEnd text size 0 = 0 + size := by
      rw [computeEnd, if_neg (by omega)]
    have hslice : pySlice text 0 (0 + size) = text := by
      have hb : pyIdx text.length (0 + size) = text.length := by
        rw [pyIdx, if_neg (by omega)]
        omega
      have ha : pyIdx text.length 0 = 0 := by
        rw [pyIdx, if_neg (by omega)]
        omega
      rw [pySlice, hb, ha, List.take_length, List.drop_zero]
    simp only [hce, hslice]
    have hstop : ¬ (0 + size - overlap < (text.length : Int)) := by omega
    by_cases hc : (pyStrip text).isEmpty = true
    · rw [if_pos hc, if_pos (eq_nil_of_isEmpty hc)]
      exact chunkGo_stop text size overlap 0 _ [] hstop
    · have h0 : pyStrip text ≠ [] := fun h => hc (by rw [h]; rfl)
      rw [if_neg hc, if_neg h0]
      have := chunkGo_stop text size overlap 0 (0 + size - overlap)
        ([] ++ [pyStrip text]) hstop
      simpa using this

/-- C4 witness: a 5-character input returns exactly its trimmed content as
the only chunk. -/
theorem c4_short_input_witness :
    chunk_text [' ', ' ', 'h', 'i', ' '] 1000 200 2 = some [['h', 'i']] :=
  (c4_short_input [' ', ' ', 'h', 'i', ' '] 1000 200 (by decide) (by decide)
    (by decide)).trans (by decide)

/-- C4 counterexample: an input of 900 characters is strictly shorter than
the default `chunk_size = 1000`, yet `chunk_text` returns two chunks (the
second iteration starts at `800 < 900`). -/
theorem c4_short_input_counterexample :
    (List.replicate 900 'a').length < 1000 ∧
    chunk_text (List.replicate 900 'a') 1000 200 9 =
      some [List.replicate 900 'a', List.replicate 100 'a'] := by
  refine ⟨by decide, by decide⟩

/-! ### Claims C5-C10: upload handling, vector store, document processing -/

/-- C5 (confirmed): when the uploaded bytes hash to a digest already held
by a tracked document, `save_uploaded_file` returns
`(None, "Duplicate file detected")`, the tracked documents are unchanged,
and the storage is untouched (the write happens only after the duplicate
check). -/
theorem c5_duplicate_upload_rejected (hashFn : List Nat → String)
    (now : String) (documents : List DocInfo)
    (storage : List (String × List Nat)) (name ftype : String)
    (fileBytes : List Nat)
    (hdup : ∃ d ∈ documents, d.hash = hashFn fileBytes) :
    save_uploaded_file hashFn now documents storage name ftype fileBytes =
      ((none, some ("Duplicate file detected")), storage) ∧
    uploadAndTrack hashFn now documents storage name ftype fileBytes =
      (documents, storage, some ("Duplicate file detected")) := by
  have hany : documents.any (fun d => d.hash == hashFn fileBytes) = true := by
    rcases hdup with ⟨d, hd, hh⟩
    exact List.any_eq_true.mpr ⟨d, hd, beq_iff_eq.mpr hh⟩
  have hsave : save_uploaded_file hashFn now documents storage name ftype
      fileBytes = ((none, some ("Duplicate file detected")), storage) := by
    rw [save_uploaded_file, if_pos hany]
  exact ⟨hsave, by rw [uploadAndTrack, hsave]⟩

/-- C5 witness: re-uploading bytes whose digest matches the tracked
document is rejected and changes nothing. -/
theorem c5_duplicate_upload_rejected_witness :
    save_uploaded_file (fun _ => "h") "t"
      [⟨"f", "data/f", "h", 1, "t", "uploaded", "pdf"⟩] [] "g" "pdf" [7] =
      ((none, some ("Duplicate file detected")), []) :=
  (c5_duplicate_upload_rejected (fun _ => "h") "t"
    [⟨"f", "data/f", "h", 1, "t", "uploaded", "pdf"⟩] [] "g" "pdf" [7]
    ⟨⟨"f", "data/f", "h", 1, "t", "uploaded", "pdf"⟩, by simp, rfl⟩).1

/-- C6 (confirmed): when embedding generation fails (empty vector),
`search` returns the empty result dict instead of raising. -/
theorem c6_search_empty_embedding (embed : String → List Int)
    (queryFn : List Int → Nat → Except String RawQueryResult)
    (query : String) (n_results : Nat) (hfail : embed query = []) :
    search embed queryFn query n_results = ⟨[], [], []⟩ := by
  simp [search, hfail]

/-- C6 witness: a failing embedder yields the empty search result even
over a failing query backend. -/
theorem c6_search_empty_embedding_witness :
    search (fun _ => []) (fun _ _ => Except.error ("no store")) "q" 5 =
      ⟨[], [], []⟩ :=
  c6_search_empty_embedding (fun _ => []) (fun _ _ => Except.error ("no store"))
    "q" 5 rfl

lemma takeWhileOk_map_ok (pre : List String) :
    ∀ rest : List (Except String String),
      takeWhileOk (pre.map Except.ok ++ rest) =
        pre ++ takeWhileOk rest := by
  induction pre with
  | nil => intro rest; rfl
  | cons a t ih => intro rest; simp [takeWhileOk, ih]

lemma takeWhileOk_error (e : String) (post : List (Except String String)) :
    takeWhileOk (Except.error e :: post) = [] := rfl

lemma anyErrorB_map_ok (pre : List String) :
    ∀ rest : List (Except String String),
      anyErrorB (pre.map Except.ok ++ rest) = anyErrorB rest := by
  induction pre with
  | nil => intro rest; rfl
  | cons a t ih =>
      intro rest
      simp only [List.map_cons, List.cons_append, anyErrorB, List.any_cons]
      simp only [anyErrorB] at ih
      rw [ih rest, Bool.false_or]

/-- C7 (amended): an extractor exception that reaches the dispatch
boundary of `process_file` yields status `error` with the exception's
message and empty text; but an exception inside `process_pdf`'s page loop
is caught within `process_pdf`, which returns the pages extracted before
the failure, and `process_file` reports that partial text as `success`. -/
theorem c7_errors_and_pdf_partial :
    (∀ file_type e : String,
       process_file file_type (some (Except.error e)) =
         ⟨"", [], "", "error", some e⟩) ∧
    (∀ (ocrAvailable : Bool) (docOpen : Except String Nat)
       (ocrPage : Nat → Except String String) (pre : List String)
       (e : String) (post : List (Except String String)),
       process_file "application/pdf"
         (some (Except.ok (process_pdf ocrAvailable
           (Except.ok (pre.map Except.ok ++ Except.error e :: post))
           docOpen ocrPage))) =
         ⟨String.intercalate "\n\n" pre,
          pre.enum.map (fun p => PdfPageEntry.mk (p.1 + 1) p.2 p.2.length),
          "text_extraction", "success", none⟩) := by
  constructor
  · intro file_type e; rfl
  · intro ocrAvailable docOpen ocrPage pre e post
    have htw : takeWhileOk (pre.map Except.ok ++ Except.error e :: post) =
        pre := by
      rw [takeWhileOk_map_ok, takeWhileOk_error, List.append_nil]
    have herr : anyErrorB (pre.map Except.ok ++ Except.error e :: post) =
        true := by
      rw [anyErrorB_map_ok]
      simp [anyErrorB]
    rw [process_pdf]
    simp only [htw, herr, if_true]
    rfl

/-- C7 counterexample: a PDF whose second page extraction raises is still
reported as `success` by `process_file`, with the first page's text — the
partial text is accepted as success, contradicting the claim. -/
theorem c7_errors_and_pdf_partial_counterexample :
    (process_file "application/pdf" (some (Except.ok (process_pdf true
        (Except.ok [Except.ok "hello", Except.error "boom"])
        (Except.ok 2) (fun _ => Except.error "x"))))).status = "success" ∧
    (process_file "application/pdf" (some (Except.ok (process_pdf true
        (Except.ok [Except.ok "hello", Except.error "boom"])
        (Except.ok 2) (fun _ => Except.error "x"))))).text = "hello" ∧
    (process_file "application/pdf" (some (Except.ok (process_pdf true
        (Except.ok [Except.ok "hello", Except.error "boom"])
        (Except.ok 2) (fun _ => Except.error "x"))))).error = none := by
  refine ⟨by decide, by decide, by decide⟩

lemma mem_collected {n' : Nat} {ocrPage : Nat → Except String String}
    {i : Nat} {t : String} :
    ((i, t) ∈ (List.range n').filterMap (fun j =>
      match ocrPage j with
      | Except.ok u => some (j, u)
      | Except.error _ => none)) ↔ (i < n' ∧ ocrPage i = Except.ok t) := by
  rw [List.mem_filterMap]
  constructor
  · rintro ⟨j, hj, hmatch⟩
    rcases hok : ocrPage j with e | u
    · rw [hok] at hmatch
      simp at hmatch
    · rw [hok] at hmatch
      simp only [Option.some.injEq, Prod.mk.injEq] at hmatch
      rcases hmatch with ⟨rfl, rfl⟩
      exact ⟨List.mem_range.mp hj, hok⟩
  · rintro ⟨hi, hok⟩
    exact ⟨i, List.mem_range.mpr hi, by rw [hok]⟩

lemma scanned_pdf_collected_eq_nil {n m : Nat}
    {ocrPage : Nat → Except String String}
    (hfail : ∀ i, i < min n m → ∃ err, ocrPage i = Except.error err) :
    (List.range (min n m)).filterMap (fun i =>
      match ocrPage i with
      | Except.ok t => some (i, t)
      | Except.error _ => none) = ([] : List (Nat × String)) := by
  rw [List.filterMap_eq_nil_iff]
  intro i hi
  rcases hfail i (List.mem_range.mp hi) with ⟨err, herr⟩
  rw [herr]

/-- C8 (amended): OCR of a scanned PDF keeps exactly the pages whose
transcription succeeded (a page appears in the result iff its OCR call
returned text), the combined text is assembled from exactly the kept
pages, and when every page fails `process_scanned_pdf` still returns
status `success` with empty text and page list — which `process_pdf` then
returns as the (empty) OCR result instead of falling back to the direct
extraction. -/
theorem c8_ocr_page_failures (n m : Nat)
    (ocrPage : Nat → Except String String) :
    ((process_scanned_pdf (Except.ok n) ocrPage m).text =
       String.intercalate "\n\n"
         ((process_scanned_pdf (Except.ok n) ocrPage m).pages.map
           (fun pg => "[Page " ++ toString pg.page_number ++ "]\n" ++
             pg.text))) ∧
    (∀ (i : Nat) (t : String),
       (∃ pg ∈ (process_scanned_pdf (Except.ok n) ocrPage m).pages,
          pg.page_number = i + 1 ∧ pg.text = t) ↔
       (i < min n m ∧ ocrPage i = Except.ok t)) ∧
    ((∀ i, i < min n m → ∃ err, ocrPage i = Except.error err) →
       process_scanned_pdf (Except.ok n) ocrPage m =
         ⟨"", [], "success", none, min n m⟩) ∧
    (∀ direct : List String,
       (direct.map stripLen).sum < 30 * direct.length ∨ direct.length = 0 →
       (∀ i, ∃ err, ocrPage i = Except.error err) →
       process_pdf true (Except.ok (direct.map Except.ok)) (Except.ok n)
         ocrPage = ⟨"", [], "ocr"⟩) := by
  refine ⟨?_, ?_, ?_, ?_⟩
  · rw [process_scanned_pdf]
    simp only [List.map_map]
    rfl
  · intro i t
    rw [process_scanned_pdf]
    simp only [List.mem_map]
    constructor
    · rintro ⟨pg, ⟨⟨i', t'⟩, hpmem, rfl⟩, hnum, htext⟩
      have h5 : i' + 1 = i + 1 := hnum
      have h6 : t' = t := htext
      have hi' : i' = i := by omega
      subst hi'
      subst h6
      exact mem_collected.mp hpmem
    · rintro ⟨hi, hok⟩
      exact ⟨⟨i + 1, t, t.length⟩, ⟨⟨i, t⟩, mem_collected.mpr ⟨hi, hok⟩, rfl⟩,
        rfl, rfl⟩
  · intro hfail
    rw [process_scanned_pdf]
    simp only [scanned_pdf_collected_eq_nil hfail]
    rfl
  · intro direct h30 hfail
    rw [process_pdf]
    have htw : takeWhileOk (direct.map Except.ok ++ []) = direct ++ [] :=
      takeWhileOk_map_ok direct []
    simp only [List.append_nil] at htw
    have herr : anyErrorB (direct.map Except.ok ++ []) = false :=
      anyErrorB_map_ok direct []
    simp only [List.append_nil] at herr
    simp only [htw, herr, Bool.false_eq_true, if_false, List.length_map]
    have havg : (decide (direct.length = 0) ||
        decide ((direct.map stripLen).sum < 30 * direct.length)) = true := by
      rcases h30 with h | h
      · simp [h]
      · simp [h]
    rw [havg]
    simp only [Bool.true_and, if_true]
    have hocr : process_scanned_pdf (Except.ok n) ocrPage
        (min direct.length 20) = ⟨"", [], "success", none,
          min n (min direct.length 20)⟩ := by
      rw [process_scanned_pdf]
      simp only [scanned_pdf_collected_eq_nil
        (fun i _ => hfail i)]
      rfl
    rw [hocr]
    rfl

/-- C8 witness: a two-page scanned PDF whose every page transcription
fails still yields OCR status `success` with empty text and pages. -/
theorem c8_ocr_page_failures_witness :
    process_scanned_pdf (Except.ok 2) (fun _ => Except.error "e") 5 =
      ⟨"", [], "success", none, 2⟩ :=
  (c8_ocr_page_failures 2 5 (fun _ => Except.error "e")).2.2.1
    (fun _ _ => ⟨"e", rfl⟩)

/-- C8 counterexample: for a scanned single-page PDF (direct text `"ab"`,
below the OCR threshold) whose OCR fails on every page, `process_pdf`
returns the empty OCR result (method `ocr`), not the direct-extraction
text `"ab"` the claim promises as fallback. -/
theorem c8_ocr_page_failures_counterexample :
    process_pdf true (Except.ok [Except.ok "ab"]) (Except.ok 1)
      (fun _ => Except.error "fail") = ⟨"", [], "ocr"⟩ ∧
    process_pdf false (Except.ok [Except.ok "ab"]) (Except.ok 1)
      (fun _ => Except.error "fail") =
      ⟨"ab", [⟨1, "ab", 2⟩], "text_extraction"⟩ := by
  refine ⟨by decide, by decide⟩

lemma zip4_filter_eq (embed : String → List Int) :
    ∀ (cs : List String) (ms : List ChunkMeta) (ids : List String),
      cs.length = ms.length → ms.length = ids.length →
      (zip4 cs (cs.map embed) ms ids).filter (fun tu => !tu.2.1.isEmpty) =
        ((List.range cs.length).filter
            (fun i => !(embed (cs.getD i "")).isEmpty)).map
          (fun i => (cs.getD i "", embed (cs.getD i ""),
                     ms.getD i default, ids.getD i "")) := by
  intro cs
  induction cs with
  | nil => intro ms ids _ _; rfl
  | cons c cs ih =>
      intro ms ids h1 h2
      cases ms with
      | nil => simp at h1
      | cons m ms =>
          cases ids with
          | nil => simp at h2
          | cons idv ids =>
              have h1' : cs.length = ms.length := by simpa using h1
              have h2' : ms.length = ids.length := by simpa using h2
              show ((c, embed c, m, idv) ::
                  zip4 cs (cs.map embed) ms ids).filter
                  (fun tu => !tu.2.1.isEmpty) = _
              rw [List.filter_cons]
              have hr : (c :: cs).length = cs.length + 1 := rfl
              rw [hr, List.range_succ_eq_map, List.filter_cons,
                List.filter_map]
              rw [ih ms ids h1' h2']
              by_cases hc : (embed c).isEmpty
              · simp [hc, List.map_map, Function.comp_def,
                  Nat.succ_eq_add_one, List.getD_cons_succ,
                  List.getD_cons_zero]
              · simp only [Bool.not_eq_true] at hc
                simp [hc, List.map_map, Function.comp_def,
                  Nat.succ_eq_add_one, List.getD_cons_succ,
                  List.getD_cons_zero]

/-- C9 (confirmed): with equal-length inputs, `add_documents` drops
exactly the positions whose embedding generation failed (empty vector),
keeps chunk, embedding, metadata and id aligned position-by-position,
appends the surviving entries (keyed by id) to the collection on success,
and returns `False` exactly when no position survives or the store
rejects the add. -/
theorem c9_add_documents_aligned (embed : String → List Int)
    (addResult : Except String Unit) (store : List VSEntry)
    (chunks : List String) (metadatas : List ChunkMeta) (ids : List String)
    (hlen1 : chunks.length = metadatas.length)
    (hlen2 : metadatas.length = ids.length) :
    add_documents embed addResult store chunks metadatas ids =
      add_documents_spec embed addResult store chunks metadatas ids ∧
    ((add_documents embed addResult store chunks metadatas ids).1 = false ↔
      ((List.range chunks.length).filter
          (fun i => !(embed (chunks.getD i "")).isEmpty) = [] ∨
        ∃ e, addResult = Except.error e)) := by
  have hkey := zip4_filter_eq embed chunks metadatas ids hlen1 hlen2
  have heq : add_documents embed addResult store chunks metadatas ids =
      add_documents_spec embed addResult store chunks metadatas ids := by
    unfold add_documents add_documents_spec
    dsimp only
    rw [hkey]
    by_cases hk : ((List.range chunks.length).filter
        (fun i => !(embed (chunks.getD i "")).isEmpty)) = []
    · rw [hk]
      simp
    · have hke : (((List.range chunks.length).filter
          (fun i => !(embed (chunks.getD i "")).isEmpty)).map
            (fun i => (chunks.getD i "", embed (chunks.getD i ""),
              metadatas.getD i default, ids.getD i ""))).isEmpty = false :=
        isEmpty_false_of_ne_nil (by
          intro h
          exact hk (List.map_eq_nil_iff.mp h))
      have hke2 : ((List.range chunks.length).filter
          (fun i => !(embed (chunks.getD i "")).isEmpty)).isEmpty = false :=
        isEmpty_false_of_ne_nil hk
      rw [hke, hke2]
      rcases addResult with e | u
      · simp
      · simp [List.map_map, Function.comp_def]
  refine ⟨heq, ?_⟩
  rw [heq]
  unfold add_documents_spec
  dsimp only
  by_cases hk : ((List.range chunks.length).filter
      (fun i => !(embed (chunks.getD i "")).isEmpty)) = []
  · rw [hk]
    simp
  · have hke2 : ((List.range chunks.length).filter
        (fun i => !(embed (chunks.getD i "")).isEmpty)).isEmpty = false :=
      isEmpty_false_of_ne_nil hk
    rw [hke2]
    rcases addResult with e | u
    · simp only [Bool.false_eq_true, if_false]
      exact ⟨fun _ => Or.inr ⟨e, rfl⟩, fun _ => trivial⟩
    · simp only [Bool.false_eq_true, if_false]
      constructor
      · intro h
        simp at h
      · rintro (h | ⟨e, he⟩)
        · exact absurd h hk
        · simp at he

/-- C9 witness: of two chunks, the one whose embedding fails is dropped
and the surviving aligned entry is added; the call returns `True`. -/
theorem c9_add_documents_aligned_witness :
    add_documents (fun s => if s = "a" then ([1] : List Int) else [])
      (Except.ok ()) [] ["a", "b"]
      [⟨"d", 0, 1, "t"⟩, ⟨"d", 1, 1, "t"⟩] ["i0", "i1"] =
      (true, [⟨"i0", "a", ⟨"d", 0, 1, "t"⟩, [1]⟩]) :=
  ((c9_add_documents_aligned (fun s => if s = "a" then ([1] : List Int) else [])
    (Except.ok ()) [] ["a", "b"] [⟨"d", 0, 1, "t"⟩, ⟨"d", 1, 1, "t"⟩]
    ["i0", "i1"] rfl rfl).1).trans (by decide)

/-- C10 (confirmed): assuming the collection's ids are distinct,
`delete_document` deletes exactly the entries whose metadata
`document_name` matches and returns `True` when at least one entry
matches, and returns `False` leaving the collection unchanged when no
entry matches. -/
theorem c10_delete_document_matches (store : List VSEntry)
    (document_name : String) (hnodup : (store.map VSEntry.id).Nodup) :
    ((∃ e ∈ store, e.meta.document_name = document_name) →
       delete_document store document_name =
         (true, store.filter
           (fun e => !(e.meta.document_name == document_name)))) ∧
    ((∀ e ∈ store, e.meta.document_name ≠ document_name) →
       delete_document store document_name = (false, store)) := by
  constructor
  · rintro ⟨e0, he0, hname⟩
    have hmem : e0 ∈ store.filter
        (fun e => e.meta.document_name == document_name) :=
      List.mem_filter.mpr ⟨he0, beq_iff_eq.mpr hname⟩
    have hie : ((store.filter
        (fun e => e.meta.document_name == document_name)).map
          VSEntry.id).isEmpty = false :=
      isEmpty_false_of_ne_nil (by
        intro h
        have := List.map_eq_nil_iff.mp h
        rw [this] at hmem
        simp at hmem)
    have key : ∀ e ∈ store,
        ((store.filter (fun x => x.meta.document_name ==
          document_name)).map VSEntry.id).contains e.id =
          (e.meta.document_name == document_name) := by
      intro e he
      by_cases hm : e.meta.document_name = document_name
      · have hmm2 : e.id ∈ (store.filter
            (fun x => x.meta.document_name == document_name)).map
              VSEntry.id :=
          List.mem_map.mpr ⟨e, List.mem_filter.mpr ⟨he, beq_iff_eq.mpr hm⟩,
            rfl⟩
        have hc : ((store.filter (fun x => x.meta.document_name ==
            document_name)).map VSEntry.id).contains e.id = true := by
          simpa using hmm2
        rw [hc, beq_iff_eq.mpr hm]
      · have hnm2 : e.id ∉ (store.filter
            (fun x => x.meta.document_name == document_name)).map
              VSEntry.id := by
          intro hmem2
          rcases List.mem_map.mp hmem2 with ⟨f, hff, hid⟩
          rcases List.mem_filter.mp hff with ⟨hfs, hfm⟩
          have hfe : f = e := List.inj_on_of_nodup_map hnodup hfs he hid
          rw [hfe] at hfm
          exact hm (beq_iff_eq.mp hfm)
        rw [beq_eq_false_iff_ne.mpr hm]
        exact Bool.eq_false_iff.mpr (fun h => hnm2 (by simpa using h))
    simp only [delete_document, hie, Bool.false_eq_true, if_false]
    rw [List.filter_congr (fun e he => by rw [key e he])]
  · intro hnone
    have hfil : store.filter
        (fun e => e.meta.document_name == document_name) = [] := by
      rw [List.filter_eq_nil_iff]
      intro e he hbe
      exact hnone e he (beq_iff_eq.mp hbe)
    simp [delete_document, hfil]

/-- C10 witness: deleting `doc1` removes exactly its entry and returns
`True`; deleting it again (no entry left) returns `False` and changes
nothing. -/
theorem c10_delete_document_matches_witness :
    delete_document
      [⟨"i1", "c1", ⟨"doc1", 0, 1, "t"⟩, [1]⟩,
       ⟨"i2", "c2", ⟨"doc2", 0, 1, "t"⟩, [2]⟩] "doc1" =
      (true, [⟨"i2", "c2", ⟨"doc2", 0, 1, "t"⟩, [2]⟩]) ∧
    delete_document [⟨"i2", "c2", ⟨"doc2", 0, 1, "t"⟩, [2]⟩] "doc1" =
      (false, [⟨"i2", "c2", ⟨"doc2", 0, 1, "t"⟩, [2]⟩]) := by
  constructor
  · exact ((c10_delete_document_matches
      [⟨"i1", "c1", ⟨"doc1", 0, 1, "t"⟩, [1]⟩,
       ⟨"i2", "c2", ⟨"doc2", 0, 1, "t"⟩, [2]⟩] "doc1" (by decide)).1
      (by decide)).trans (by decide)
  · exact (c10_delete_document_matches
      [⟨"i2", "c2", ⟨"doc2", 0, 1, "t"⟩, [2]⟩] "doc1" (by decide)).2
      (by decide)

end ArabicRag
